import Mathlib

/-!
Verification of the clinical-trials MCP repository.

The Python sources are shallowly embedded: Python `str` values are
modelled as `List Char` (named `Str`), fallible code returns
`Except`/`Option`, and machine arithmetic that the code performs on
Python's unbounded ints / floats is modelled with `ℤ` / `ℚ`.
Each definition mirrors one function of the repository; the theorems at
the end of the file settle the frozen claims about the specification.
-/

namespace CTrials

/-- Python strings are modelled as lists of characters. -/
abbrev Str := List Char

/-- Model of Python `str.strip()`: drop leading and trailing whitespace. -/
def pyStrip (s : Str) : Str :=
  ((s.dropWhile (fun c => c.isWhitespace)).reverse.dropWhile
    (fun c => c.isWhitespace)).reverse

/-- Model of Python `str.split()` with no argument: split on runs of
whitespace and drop empty pieces. -/
def pyTokens (s : Str) : List Str :=
  (List.splitOnP (fun c => c.isWhitespace) s).filter (fun t => !t.isEmpty)

/-- Model of Python `source.find(pat)` restricted to its successful/None
distinction: index of the first occurrence of `pat` in `source`. -/
def pyFind (source pat : Str) : Option ℕ :=
  (List.range (source.length + 1)).find? (fun i => pat.isPrefixOf (source.drop i))

/-- Helper for `pyReplace`; the pattern is passed with its head split off so
that it is provably non-empty. -/
def pyReplaceAux (p : Char) (ps repl : Str) : Str → Str
  | [] => []
  | c :: rest =>
    if (p :: ps).isPrefixOf (c :: rest) then
      repl ++ pyReplaceAux p ps repl (rest.drop ps.length)
    else
      c :: pyReplaceAux p ps repl rest
termination_by s => s.length
decreasing_by
  · simp only [List.length_drop, List.length_cons]; omega
  · simp only [List.length_cons]; omega

/-- Model of Python `s.replace(pat, repl)` for non-empty patterns (every
call site of the repository passes a non-empty literal pattern). -/
def pyReplace (s pat repl : Str) : Str :=
  match pat with
  | [] => s
  | p :: ps => pyReplaceAux p ps repl s

/-- Model of Python `' '.join(pieces)`. -/
def joinSp : List Str → Str
  | [] => []
  | [w] => w
  | w :: ws => w ++ ' ' :: joinSp ws

/-- Section-map values: Python stores either a string or a list of strings
in the `sections` dict of `ClinicalTrialChunker`. -/
inductive SVal where
  | s (v : Str)
  | l (v : List Str)
deriving DecidableEq, Repr

/-- Embeds `ClinicalTrialChunker.DEFAULT_SECTIONS`: all eight keys start
out mapped to the empty string. -/
def DEFAULT_SECTIONS : List (Str × SVal) :=
  [("title".toList, .s []),
   ("inclusion".toList, .s []),
   ("exclusion".toList, .s []),
   ("conditions".toList, .s []),
   ("locations".toList, .s []),
   ("interventions".toList, .s []),
   ("primary_outcomes".toList, .s []),
   ("secondary_outcomes".toList, .s [])]

/-- Python dict assignment `m[k] = v` on an insertion-ordered dict:
replace the value in place when the key is present, append the pair
otherwise. -/
def dictSet : List (Str × SVal) → Str → SVal → List (Str × SVal)
  | [], k, v => [(k, v)]
  | p :: m, k, v => if p.1 = k then (p.1, v) :: m else p :: dictSet m k v

/-- Embeds `ClinicalTrialChunker._extract_between(start, end, text)`.
The `endM` argument is `none` when the Python call passes `end=None`; the
Python truthiness test `if end` is the non-emptiness test here. -/
def extractBetween (startM : Str) (endM : Option Str) (source : Str) : Str :=
  match pyFind source startM with
  | none => []
  | some i =>
    let startIdx := i + startM.length
    match endM with
    | some e =>
      match (if e.isEmpty then none else pyFind (source.drop startIdx) e) with
      | some j => pyStrip ((source.drop startIdx).take j)
      | none => pyStrip (source.drop startIdx)
    | none => pyStrip (source.drop startIdx)

/-- Recognizes the outcome marker `-\s*(PRIMARY|SECONDARY):` at the head of
the string; returns the outcome kind and the remainder after the colon. -/
def markerAt : Str → Option (Bool × Str)
  | [] => none
  | c :: tl =>
    if c = '-' then
      let r := tl.dropWhile (fun c => c.isWhitespace)
      if ("PRIMARY:".toList).isPrefixOf r then some (true, r.drop 8)
      else if ("SECONDARY:".toList).isPrefixOf r then some (false, r.drop 10)
      else none
    else none

/-- Scans forward to the first position where an outcome marker matches. -/
def dropToMarker : Str → Option (Bool × Str)
  | [] => none
  | c :: rest =>
    match markerAt (c :: rest) with
    | some r => some r
    | none => dropToMarker rest

/-- True when the regex lookahead `\s*-\s*(?:PRIMARY|SECONDARY):` matches at
the head of the string. -/
def stopAt (s : Str) : Bool :=
  (markerAt (s.dropWhile (fun c => c.isWhitespace))).isSome

/-- Length taken by the lazy `(.+?)` group after its first mandatory
character: stops at the first lookahead match or at end of string. -/
def contentLenAux : Str → ℕ
  | [] => 0
  | c :: rest => if stopAt (c :: rest) then 0 else 1 + contentLenAux rest

/-- Length of the content matched by `(.+?)(?=\s*-\s*(?:PRIMARY|SECONDARY):|$)`:
at least one character, extended lazily until the lookahead matches. -/
def contentLen : Str → ℕ
  | [] => 0
  | _ :: rest => 1 + contentLenAux rest

theorem markerAt_length {s : Str} {b : Bool} {rest : Str}
    (h : markerAt s = some (b, rest)) : rest.length < s.length := by
  match s with
  | [] => simp [markerAt] at h
  | c :: tl =>
    simp only [markerAt] at h
    have hsub : (tl.dropWhile (fun c => c.isWhitespace)).length ≤ tl.length :=
      (List.dropWhile_sublist _).length_le
    split at h
    · split at h
      · cases h
        simp only [List.length_drop, List.length_cons]
        omega
      · split at h
        · cases h
          simp only [List.length_drop, List.length_cons]
          omega
        · cases h
    · cases h

theorem dropToMarker_length {s : Str} {b : Bool} {rest : Str}
    (h : dropToMarker s = some (b, rest)) : rest.length < s.length := by
  induction s with
  | nil => simp [dropToMarker] at h
  | cons c tl ih =>
    simp only [dropToMarker] at h
    split at h
    · rename_i heq
      cases h
      exact markerAt_length heq
    · have := ih h
      simp only [List.length_cons]
      omega

/-- Embeds the `re.findall` loop of `_extract_outcomes` over the pattern
`-\s*(PRIMARY|SECONDARY):\s*(.+?)(?=\s*-\s*(?:PRIMARY|SECONDARY):|$)` (with
DOTALL): each match yields the outcome kind and the stripped content.
Degenerate whitespace-only tails yield an empty content which the caller
drops, matching the observable behaviour of the regex after `.strip()`. -/
def outcomeScan (s : Str) : List (Bool × Str) :=
  match h : dropToMarker s with
  | none => []
  | some (isP, rest) =>
    let w := rest.dropWhile (fun c => c.isWhitespace)
    let n := contentLen w
    (isP, pyStrip (w.take n)) :: outcomeScan (w.drop n)
termination_by s.length
decreasing_by
  have h1 : rest.length < s.length := dropToMarker_length h
  have h2 : (rest.dropWhile (fun c => c.isWhitespace)).length ≤ rest.length :=
    (List.dropWhile_sublist _).length_le
  have h3 := List.length_drop (contentLen (rest.dropWhile (fun c => c.isWhitespace)))
    (rest.dropWhile (fun c => c.isWhitespace))
  omega

/-- Embeds the accumulation loop of `_extract_outcomes`: stripped non-empty
contents are appended, in document order, to the primary or secondary list. -/
def splitOutcomes : List (Bool × Str) → List Str × List Str
  | [] => ([], [])
  | (isP, c) :: rest =>
    let pr := splitOutcomes rest
    if c.isEmpty then pr
    else if isP then (c :: pr.1, pr.2) else (pr.1, c :: pr.2)

/-- Embeds the title extraction of `parse`:
`lines[0].replace('Title: ', '').replace('Title:', '').strip()`. -/
def titleOf (line0 : Str) : Str :=
  pyStrip (pyReplace (pyReplace line0 ("Title: ".toList) []) ("Title:".toList) [])

/-- State of `self.sections` after the title assignment of `parse`
(`if lines:` is always true for Python `split`, which never returns an
empty list; the guard is kept faithfully). -/
def parseTitleStep (text : Str) : List (Str × SVal) :=
  let lines := List.splitOn '\n' text
  if lines.isEmpty then DEFAULT_SECTIONS
  else dictSet DEFAULT_SECTIONS ("title".toList) (.s (titleOf (lines.headD [])))

/-- The `eligibility` block extracted by `parse`. -/
def parseEligBlock (text : Str) : Str :=
  extractBetween ("Eligibility:".toList) (some ("Conditions:".toList)) text

/-- State of `self.sections` after the eligibility assignments of `parse`
(guarded by the truthiness of the extracted eligibility block). -/
def parseEligStep (text : Str) : List (Str × SVal) :=
  if (parseEligBlock text).isEmpty then parseTitleStep text
  else
    dictSet
      (dictSet (parseTitleStep text) ("inclusion".toList)
        (.s (extractBetween ("Inclusion Criteria:".toList)
          (some ("Exclusion Criteria:".toList)) (parseEligBlock text))))
      ("exclusion".toList)
      (.s (extractBetween ("Exclusion Criteria:".toList) none (parseEligBlock text)))

/-- State of `self.sections` after the three standard-section assignments
of `parse`. -/
def parseStdStep (text : Str) : List (Str × SVal) :=
  dictSet
    (dictSet
      (dictSet (parseEligStep text) ("conditions".toList)
        (.s (extractBetween ("Conditions:".toList) (some ("Locations:".toList)) text)))
      ("locations".toList)
      (.s (extractBetween ("Locations:".toList) (some ("Interventions:".toList)) text)))
    ("interventions".toList)
    (.s (extractBetween ("Interventions:".toList) (some ("Outcomes:".toList)) text))

/-- Embeds `ClinicalTrialChunker.parse`: the outcome assignments run only
when the extracted outcomes block is truthy. -/
def parse (text : Str) : List (Str × SVal) :=
  let outcomes := extractBetween ("Outcomes:".toList) none text
  if outcomes.isEmpty then parseStdStep text
  else
    let pr := splitOutcomes (outcomeScan outcomes)
    dictSet (dictSet (parseStdStep text) ("primary_outcomes".toList) (.l pr.1))
      ("secondary_outcomes".toList) (.l pr.2)

/-- Failure raised by `ClinicalTrialChunker.__init__`; models the Python
`ValueError("Document text cannot be empty")` (the specification calls
this failure `EmptyInputError`). -/
inductive InitError where
  | emptyInput
deriving DecidableEq, Repr

/-- State built by a successful `ClinicalTrialChunker.__init__`. -/
structure ChunkerState where
  text : Str
  maxLength : ℕ
  sections : List (Str × SVal)
deriving DecidableEq, Repr

/-- Embeds `ClinicalTrialChunker.__init__`: the input is `none` for an
absent (`None`) document and `some s` for a string; Python's falsiness
test `if not text` rejects both `None` and the empty string. -/
def chunkerInit (text : Option Str) (maxLength : ℕ) : Except InitError ChunkerState :=
  match text with
  | some (c :: cs) => .ok ⟨c :: cs, maxLength, DEFAULT_SECTIONS⟩
  | _ => .error .emptyInput

/-- Header used by `_split_long`: `f"Title: {title}\n{label}: "`. -/
def headerFor (title label : Str) : Str :=
  "Title: ".toList ++ title ++ '\n' :: (label ++ ": ".toList)

/-- Embeds the greedy word loop of `_split_long`: words are accumulated
until adding the next word would exceed `remaining`; the trailing
accumulator is emitted when non-empty. -/
def packWords (remaining : ℤ) : List Str → List Str → ℤ → List (List Str)
  | [], cur, _ => if cur.isEmpty then [] else [cur]
  | w :: ws, cur, len =>
    if remaining < len + ((w.length : ℤ) + 1) ∧ cur ≠ [] then
      cur :: packWords remaining ws [w] ((w.length : ℤ) + 1)
    else
      packWords remaining ws (cur ++ [w]) (len + ((w.length : ℤ) + 1))

/-- Embeds `ClinicalTrialChunker._split_long`: chunk texts appended for a
long section. `remaining` is computed as in the source with Python's
signed subtraction. -/
def splitLong (title label content : Str) (maxLength : ℕ) : List Str :=
  let header := headerFor title label
  let remaining : ℤ := (maxLength : ℤ) - (header.length : ℤ)
  if remaining ≤ 100 then
    [header ++ content.take 100]
  else
    (packWords remaining (pyTokens content) [] 0).map (fun g => header ++ joinSp g)

/-- Header used by `_add_outcome_chunks`: `f"Title: {title}\n{label}:\n"`. -/
def headerOutcomes (title label : Str) : Str :=
  "Title: ".toList ++ title ++ '\n' :: (label ++ ":\n".toList)

/-- Formatting of one outcome entry in `_add_outcome_chunks`:
`f"  - {outcome}\n"`. -/
def formatOutcome (o : Str) : Str :=
  "  - ".toList ++ o ++ ['\n']

/-- Embeds the grouping loop of `_add_outcome_chunks`: formatted outcome
texts are grouped greedily; a group is flushed when adding the next entry
would exceed `maxLength` and the group is non-empty. -/
def outcomeGroups (maxLength headerLen : ℕ) : List Str → List Str → ℕ → List (List Str)
  | [], cur, _ => if cur.isEmpty then [] else [cur]
  | o :: os, cur, len =>
    let t := formatOutcome o
    if maxLength < len + t.length ∧ cur ≠ [] then
      cur :: outcomeGroups maxLength headerLen os [t] (headerLen + t.length)
    else
      outcomeGroups maxLength headerLen os (cur ++ [t]) (len + t.length)

/-- Embeds `ClinicalTrialChunker._add_outcome_chunks` for a non-empty
list-valued section: each emitted chunk is the shared header followed by
the concatenation of its group of formatted entries. -/
def addOutcomeChunks (title label : Str) (maxLength : ℕ) (outcomes : List Str) : List Str :=
  let header := headerOutcomes title label
  (outcomeGroups maxLength header.length outcomes [] header.length).map
    (fun g => header ++ g.flatten)

/-- Python values that may reach `parse_conditions` as its `cond`
argument (the field is untyped JSON-ish data at run time). -/
inductive PyVal where
  | vStr (s : Str)
  | vList (l : List PyVal)
  | vNone
  | vInt (n : ℤ)
deriving Repr

/-- Python truthiness for the values of `PyVal`. -/
def pyTruthy : PyVal → Bool
  | .vStr s => !s.isEmpty
  | .vList l => !l.isEmpty
  | .vNone => false
  | .vInt n => decide (n ≠ 0)

/-- Embeds `server.parse_conditions`: `if not cond: return []`, then the
comprehension `[c.strip() for c in cond.split(",") if c.strip()]` for
strings, `[]` for any non-string value. -/
def parse_conditions (cond : PyVal) : List Str :=
  if !pyTruthy cond then []
  else
    match cond with
    | .vStr s => ((List.splitOn ',' s).map pyStrip).filter (fun c => !c.isEmpty)
    | _ => []

/-- Embeds the `feasibility_level` conditional chain of
`analyze_trials_and_match_patients`; Python float literals are modelled
as exact rationals. -/
def feasibilityLevel (r : ℚ) : String :=
  if 3 / 2 ≤ r then "HIGH"
  else if 1 ≤ r then "MEDIUM"
  else "LOW"

/-- Embeds the `recruitment_risk` conditional chain of
`analyze_trials_and_match_patients`. -/
def recruitmentRisk (r : ℚ) : String :=
  if 2 ≤ r then "Minimal"
  else if 6 / 5 ≤ r then "Moderate"
  else "High"

/-- Python float values as far as the metadata parsing observes them:
finite floats are exact rationals, plus the infinities and NaN. -/
inductive FVal where
  | fin (q : ℚ)
  | inf
  | ninf
  | nan
deriving DecidableEq, Repr

/-- Exceptions that the metadata parsing of
`analyze_trials_and_match_patients` can encounter. -/
inductive PyExc where
  | valueError
  | typeError
  | overflowError
deriving DecidableEq, Repr

/-- Numeric value of a digit run. -/
def digitsVal (l : List Char) : ℕ :=
  l.foldl (fun a c => a * 10 + (c.toNat - 48)) 0

/-- Syntactic classification of a Python float literal. -/
inductive FloatTok where
  | tInf (neg : Bool)
  | tNan
  | tDec (neg : Bool) (ipart fpart : List Char)
  | tErr
deriving DecidableEq, Repr

/-- Scanning phase of the `float(str)` model: strips, reads an optional
sign, and recognizes `inf`/`infinity`/`nan` (case-insensitively) or a
plain decimal literal `digits[.digits]`. -/
def floatScan (s : Str) : FloatTok :=
  let t := pyStrip s
  let neg := t.headD ' ' = '-'
  let u := if t.headD ' ' = '-' ∨ t.headD ' ' = '+' then t.tail else t
  let low := u.map Char.toLower
  if low = "inf".toList ∨ low = "infinity".toList then .tInf neg
  else if low = "nan".toList then .tNan
  else
    let ipart := u.takeWhile Char.isDigit
    let rest := u.dropWhile Char.isDigit
    match rest with
    | [] => if ipart.isEmpty then .tErr else .tDec neg ipart []
    | '.' :: fr =>
      let fpart := fr.takeWhile Char.isDigit
      let rest2 := fr.dropWhile Char.isDigit
      if rest2.isEmpty ∧ ¬(ipart.isEmpty ∧ fpart.isEmpty) then .tDec neg ipart fpart
      else .tErr
    | _ => .tErr

/-- Valuation phase of the `float(str)` model. -/
def floatVal : FloatTok → Option FVal
  | .tInf true => some .ninf
  | .tInf false => some .inf
  | .tNan => some .nan
  | .tDec neg i f =>
    some (.fin ((if neg then -1 else 1) *
      ((digitsVal i : ℚ) + (digitsVal f : ℚ) / (10 : ℚ) ^ f.length)))
  | .tErr => none

/-- Model of Python `float(str)`: an optional sign followed by either a
plain decimal literal, `inf`/`infinity` or `nan` (case-insensitively).
Exponent and underscore forms are not modelled; they do not occur in any
input this repository feeds to `float`. -/
def parseFloatLit (s : Str) : Option FVal :=
  floatVal (floatScan s)

/-- Values that `t.get("minimum_age")` (and the two sibling fields) can
hold: absent/`None`, a string, or a finite number. -/
inductive MVal where
  | mNone
  | mStr (s : Str)
  | mNum (q : ℚ)
deriving DecidableEq, Repr

/-- Model of Python `float(x)` applied to a metadata value: numbers
convert, strings are parsed (raising `ValueError` on failure), and
`None` raises `TypeError`. -/
def pyFloat : MVal → Except PyExc FVal
  | .mNone => .error .typeError
  | .mNum q => .ok (.fin q)
  | .mStr s =>
    match parseFloatLit s with
    | some f => .ok f
    | none => .error .valueError

/-- Python `int()`'s truncation toward zero on rationals. -/
def truncRat (q : ℚ) : ℤ :=
  if q < 0 then ⌈q⌉ else ⌊q⌋

/-- Model of Python `int(f)` on a float: truncates finite values, raises
`OverflowError` on the infinities and `ValueError` on NaN. -/
def pyIntOfFloat : FVal → Except PyExc ℤ
  | .fin q => .ok (truncRat q)
  | .inf => .error .overflowError
  | .ninf => .error .overflowError
  | .nan => .error .valueError

/-- The guard `x not in (None, "", "NA")` of the per-field parsing. -/
def skipSentinel (v : MVal) : Bool :=
  decide (v = .mNone ∨ v = .mStr [] ∨ v = .mStr ("NA".toList))

/-- Body of one per-field `try` block in
`analyze_trials_and_match_patients`: when the value passes the sentinel
guard, `int(float(v))` is appended to the accumulator; conversion
failures surface as exceptions. -/
def fieldAttempt (v : MVal) (acc : List ℤ) : Except PyExc (List ℤ) :=
  if skipSentinel v then .ok acc
  else do
    let f ← pyFloat v
    let n ← pyIntOfFloat f
    return acc ++ [n]

/-- One per-field `try/except (ValueError, TypeError): pass` block: those
two exception classes are swallowed, any other exception propagates. -/
def extractField (v : MVal) (acc : List ℤ) : Except PyExc (List ℤ) :=
  match fieldAttempt v acc with
  | .ok r => .ok r
  | .error .valueError => .ok acc
  | .error .typeError => .ok acc
  | .error e => .error e

/-- The three optional numeric metadata fields of a retrieved trial. -/
structure TrialMeta where
  minimum_age : MVal
  maximum_age : MVal
  enrollment : MVal
deriving DecidableEq, Repr

/-- Embeds the metadata loop of `analyze_trials_and_match_patients`:
the three accumulator lists `min_ages`, `max_ages`, `enrollments` are
built over the retrieved trials; an uncaught exception aborts the loop. -/
def collectStats (ts : List TrialMeta) : Except PyExc (List ℤ × List ℤ × List ℤ) :=
  ts.foldlM
    (fun a t => do
      let mins ← extractField t.minimum_age a.1
      let maxs ← extractField t.maximum_age a.2.1
      let ens ← extractField t.enrollment a.2.2
      return (mins, maxs, ens))
    ([], [], [])

/-- Model of `statistics.median` on integer samples: sort, take the middle
element for odd length, the mean of the two middle elements for even
length. Only called on non-empty lists by the embedded code. -/
def pyMedian (l : List ℤ) : ℚ :=
  let s := l.mergeSort (fun a b => decide (a ≤ b))
  let n := l.length
  if n % 2 = 1 then ((s.getD (n / 2) 0 : ℤ) : ℚ)
  else ((s.getD (n / 2 - 1) 0 : ℤ) + (s.getD (n / 2) 0 : ℤ) : ℚ) / 2

/-- Embeds `statistics.median(xs) if xs else None` as used for the three
inferred criteria. -/
def inferredOf (l : List ℤ) : Option ℚ :=
  if l.isEmpty then none else some (pyMedian l)

/-- Patient fields read by the demographics summaries of
`find_eligible_patients` and `analyze_trials_and_match_patients`. -/
structure PatientRec where
  age : ℤ
  gender : Str
  race : Str
  ethnicity : Str
deriving DecidableEq, Repr

/-- Python `summary[k] = summary.get(k, 0) + 1` on an insertion-ordered
string-keyed dict. -/
def bump : List (Str × ℕ) → Str → List (Str × ℕ)
  | [], key => [(key, 1)]
  | p :: m, key => if p.1 = key then (p.1, p.2 + 1) :: m else p :: bump m key

/-- The counting loop over patients: one pass bumping the gender, race and
ethnicity dicts. -/
def countLoop : List PatientRec →
    (List (Str × ℕ) × List (Str × ℕ) × List (Str × ℕ)) →
    List (Str × ℕ) × List (Str × ℕ) × List (Str × ℕ)
  | [], acc => acc
  | p :: ps, acc =>
    countLoop ps (bump acc.1 p.gender, bump acc.2.1 p.race, bump acc.2.2 p.ethnicity)

/-- Model of Python `min` on a non-empty integer list. -/
def pyMin : List ℤ → ℤ
  | [] => 0
  | x :: xs => xs.foldl min x

/-- Model of Python `max` on a non-empty integer list. -/
def pyMax : List ℤ → ℤ
  | [] => 0
  | x :: xs => xs.foldl max x

/-- Banker's rounding of a rational to an integer, as Python `round`. -/
def roundEven (x : ℚ) : ℤ :=
  if x - ⌊x⌋ = 1 / 2 then (if ⌊x⌋ % 2 = 0 then ⌊x⌋ else ⌊x⌋ + 1)
  else round x

/-- Model of `round(statistics.mean(xs), 1)`. -/
def pyMeanRound1 (l : List ℤ) : ℚ :=
  (roundEven (10 * ((l.sum : ℚ) / (l.length : ℚ)))) / 10

/-- The `summary["age"]` sub-dict built for a non-empty patient list. -/
structure AgeSummary where
  amin : ℤ
  amax : ℤ
  amedian : ℚ
  amean : ℚ
deriving DecidableEq, Repr

/-- The demographics summary dict: `age` is `none` exactly when the
patient list is empty (the code leaves the sub-dict `{}`). -/
structure Demographics where
  total : ℕ
  age : Option AgeSummary
  gender : List (Str × ℕ)
  race : List (Str × ℕ)
  ethnicity : List (Str × ℕ)
deriving DecidableEq, Repr

/-- Embeds the demographics-summary construction shared verbatim by
`find_eligible_patients` (server.py lines 124-142) and
`analyze_trials_and_match_patients` (lines 280-299). -/
def buildDemographics (ps : List PatientRec) : Demographics :=
  if ps.isEmpty then
    { total := ps.length, age := none, gender := [], race := [], ethnicity := [] }
  else
    let ages := ps.map (fun p => p.age)
    let counts := countLoop ps ([], [], [])
    { total := ps.length
      age := some ⟨pyMin ages, pyMax ages, pyMedian ages, pyMeanRound1 ages⟩
      gender := counts.1
      race := counts.2.1
      ethnicity := counts.2.2 }

/-- Sum of the counter values of a demographics dict. -/
def sumCounts (m : List (Str × ℕ)) : ℕ :=
  (m.map Prod.snd).sum

/-- Modelled from the spec: the repository's `db.find_eligible_patients`
(the `EligibilityMatcher` of §4.3) is not present under `src/` — only its
callers are — so the per-requirement test is taken from the spec's words:
a required condition is satisfied when some observed condition has
semantic similarity at least the threshold. -/
def conditionSatisfied (sim : Str → Str → ℚ) (threshold : ℚ)
    (observed : List Str) (r : Str) : Bool :=
  observed.any (fun o => decide (threshold ≤ sim r o))

/-- Modelled from the spec: conjunctive matching across the required
conditions (§4.3: "existential match per requirement, universal match
across requirements"); the default threshold is 0.75. -/
def eligMatch (sim : Str → Str → ℚ) (threshold : ℚ)
    (required observed : List Str) : Bool :=
  required.all (conditionSatisfied sim threshold observed)

/-- Modelled from the spec: the matcher "applies this test to each
candidate in iteration order and stops once a caller-supplied `limit` of
eligible patients is reached" (§4.3); the implementing
`db.find_eligible_patients` is not under `src/`. -/
def selectEligible {α : Type} (elig : α → Bool) : ℕ → List α → List α
  | _, [] => []
  | 0, _ => []
  | n + 1, c :: cs =>
    if elig c then c :: selectEligible elig n cs
    else selectEligible elig (n + 1) cs

/-! Theorems settling the claims. -/

/-- C3: for every availability ratio `r`, `feasibility_level` is HIGH iff
`r ≥ 1.5`, MEDIUM iff `1 ≤ r < 1.5` and LOW iff `r < 1`, while
`recruitment_risk` is Minimal iff `r ≥ 2`, Moderate iff `1.2 ≤ r < 2` and
High iff `r < 1.2`; the two cut lists are evaluated independently against
the same ratio, and `r = 1.6` yields HIGH with Moderate. -/
theorem C3_feasibility_thresholds :
    (∀ r : ℚ,
      (feasibilityLevel r = "HIGH" ↔ 3 / 2 ≤ r) ∧
      (feasibilityLevel r = "MEDIUM" ↔ 1 ≤ r ∧ r < 3 / 2) ∧
      (feasibilityLevel r = "LOW" ↔ r < 1) ∧
      (recruitmentRisk r = "Minimal" ↔ 2 ≤ r) ∧
      (recruitmentRisk r = "Moderate" ↔ 6 / 5 ≤ r ∧ r < 2) ∧
      (recruitmentRisk r = "High" ↔ r < 6 / 5)) ∧
    feasibilityLevel (8 / 5) = "HIGH" ∧ recruitmentRisk (8 / 5) = "Moderate" := by
  refine ⟨fun r => ?_, by norm_num [feasibilityLevel], by norm_num [recruitmentRisk]⟩
  unfold feasibilityLevel recruitmentRisk
  refine ⟨?_, ?_, ?_, ?_, ?_, ?_⟩ <;>
    split_ifs with h1 h2 <;>
      simp_all <;> first | linarith | (constructor <;> linarith)

/-- C8: construction of the section extractor fails exactly on empty or
absent document text — the failure the spec names `EmptyInputError`,
raised as `ValueError("Document text cannot be empty")` in the source —
and no section map is produced in that case; every non-empty text
constructs successfully. -/
theorem C8_empty_input_rejected :
    ∀ (t : Option Str) (ml : ℕ),
      (chunkerInit t ml = .error .emptyInput ↔ t = none ∨ t = some []) ∧
      (∀ c cs, chunkerInit (some (c :: cs)) ml = .ok ⟨c :: cs, ml, DEFAULT_SECTIONS⟩) := by
  intro t ml
  refine ⟨?_, fun c cs => rfl⟩
  cases t with
  | none => simp [chunkerInit]
  | some s => cases s <;> simp [chunkerInit]

/-- C9: `parse_conditions` maps a non-empty string to its comma-separated
segments, each stripped, with empty segments dropped, in original order;
the empty string and every non-string value yield the empty list. -/
theorem C9_parse_conditions_spec :
    (∀ s : Str, s ≠ [] →
      parse_conditions (.vStr s) =
        ((List.splitOn ',' s).map pyStrip).filter (fun c => !c.isEmpty)) ∧
    parse_conditions (.vStr []) = [] ∧
    (∀ v : PyVal, (∀ s, v ≠ .vStr s) → parse_conditions v = []) := by
  refine ⟨?_, rfl, ?_⟩
  · intro s hs
    have : pyTruthy (.vStr s) = true := by
      simp [pyTruthy, hs]
    simp [parse_conditions, this]
  · intro v hv
    cases v with
    | vStr s => exact absurd rfl (hv s)
    | vList l => simp only [parse_conditions]; split <;> rfl
    | vNone => rfl
    | vInt n => simp only [parse_conditions]; split <;> rfl

/-- Witness for C9 at a concrete comma-separated string. -/
theorem C9_parse_conditions_witness :
    parse_conditions (.vStr (" a, ,b".toList)) =
      ((List.splitOn ',' (" a, ,b".toList)).map pyStrip).filter (fun c => !c.isEmpty) :=
  C9_parse_conditions_spec.1 (" a, ,b".toList) (by decide)

/-- C2 (spec-modelled, the implementing `db.find_eligible_patients` is not
under `src/`): with the default threshold 0.75, the eligibility decision
is true iff every required condition has some observed condition at
similarity at least 0.75; an empty requirement list is always satisfied,
and a single requirement below threshold against every observed condition
is rejected. -/
theorem C2_conjunctive_matching :
    ∀ (sim : Str → Str → ℚ) (observed required : List Str),
      (eligMatch sim (3 / 4) required observed = true ↔
        ∀ r ∈ required, ∃ o ∈ observed, 3 / 4 ≤ sim r o) ∧
      eligMatch sim (3 / 4) [] observed = true ∧
      (∀ x, (∀ o ∈ observed, sim x o < 3 / 4) →
        eligMatch sim (3 / 4) [x] observed = false) := by
  intro sim observed required
  have hiff : ∀ req : List Str,
      eligMatch sim (3 / 4) req observed = true ↔
        ∀ r ∈ req, ∃ o ∈ observed, 3 / 4 ≤ sim r o := by
    intro req
    simp [eligMatch, conditionSatisfied, List.all_eq_true, List.any_eq_true]
  refine ⟨hiff required, rfl, ?_⟩
  intro x hx
  rw [Bool.eq_false_iff]
  intro htrue
  obtain ⟨o, ho, hle⟩ := (hiff [x]).mp htrue x (List.mem_singleton.mpr rfl)
  exact absurd hle (not_le.mpr (hx o ho))

/-- Witness for C2: a similarity function that is constantly 0 rejects a
single required condition against a non-empty observed list. -/
theorem C2_conjunctive_matching_witness :
    eligMatch (fun _ _ => 0) (3 / 4) [("X".toList)] [("o".toList)] = false :=
  (C2_conjunctive_matching (fun _ _ => 0) [("o".toList)] [("X".toList)]).2.2
    ("X".toList) (by intro o ho; norm_num)

/-- C7 (spec-modelled, the implementing `db.find_eligible_patients` is not
under `src/`): the matcher returns exactly the first at-most-`limit`
candidates passing the eligibility test, in input iteration order — the
prefix of length `limit` of the qualifying subsequence, with no
reordering by similarity or any other key. -/
theorem C7_first_n_in_iteration_order :
    ∀ (α : Type) (elig : α → Bool) (limit : ℕ) (cs : List α),
      selectEligible elig limit cs = (cs.filter elig).take limit := by
  intro α elig limit cs
  induction cs generalizing limit with
  | nil => cases limit <;> rfl
  | cons c cs ih =>
    cases limit with
    | zero => rfl
    | succ n =>
      by_cases h : elig c
      · simp [selectEligible, h, List.filter_cons, ih]
      · simp [selectEligible, h, List.filter_cons, ih]

/-- C4: the per-field defensive parsing is not exception-free. The string
value "inf" passes the sentinel guard and `float("inf")` succeeds, but
`int(float("inf"))` raises `OverflowError`, which the
`except (ValueError, TypeError)` handler does not catch, so the exception
escapes the metadata loop instead of the field being skipped; ordinary
malformed, missing and valid values behave as claimed. -/
theorem C4_overflow_escapes_handler :
    collectStats [⟨.mStr ("inf".toList), .mNone, .mNone⟩] = .error .overflowError ∧
    fieldAttempt (.mStr ("inf".toList)) [] = .error .overflowError ∧
    (PyExc.overflowError ≠ PyExc.valueError ∧ PyExc.overflowError ≠ PyExc.typeError) ∧
    extractField (.mStr ("abc".toList)) [] = .ok [] ∧
    extractField .mNone [] = .ok [] ∧
    extractField (.mStr ("NA".toList)) [] = .ok [] ∧
    extractField (.mStr ("42.7".toList)) [] = .ok [42] ∧
    extractField (.mNum (55 / 10)) [] = .ok [5] := by
  have h42 : truncRat (427 / 10) = 42 := by
    rw [truncRat, if_neg (by norm_num)]
    rw [show ((427 : ℚ) / 10) = ((427 : ℤ) : ℚ) / ((10 : ℕ) : ℚ) by norm_num]
    rw [Rat.floor_intCast_div_natCast]
    decide
  have h5 : truncRat (55 / 10) = 5 := by
    rw [truncRat, if_neg (by norm_num)]
    rw [show ((55 : ℚ) / 10) = ((55 : ℤ) : ℚ) / ((10 : ℕ) : ℚ) by norm_num]
    rw [Rat.floor_intCast_div_natCast]
    decide
  have hd1 : digitsVal ("42".toList) = 42 := by decide
  have hd2 : digitsVal ("7".toList) = 7 := by decide
  have he : ((if false then (-1 : ℚ) else 1) *
      ((digitsVal ("42".toList) : ℚ) +
        (digitsVal ("7".toList) : ℚ) / (10 : ℚ) ^ ("7".toList).length)) = 427 / 10 := by
    rw [hd1, hd2]
    norm_num
  have h7 : extractField (.mStr ("42.7".toList)) [] = .ok [42] := by
    show Except.ok ([] ++ [truncRat ((if false then (-1 : ℚ) else 1) *
      ((digitsVal ("42".toList) : ℚ) +
        (digitsVal ("7".toList) : ℚ) / (10 : ℚ) ^ ("7".toList).length))]) = Except.ok [42]
    rw [he, h42]
    rfl
  have h8 : extractField (.mNum (55 / 10)) [] = .ok [5] := by
    show Except.ok ([] ++ [truncRat ((55 : ℚ) / 10)]) = Except.ok [5]
    rw [h5]
    rfl
  exact ⟨rfl, rfl, ⟨by decide, by decide⟩, rfl, rfl, rfl, h7, h8⟩

theorem packWords_flatten (r : ℤ) :
    ∀ (ws cur : List Str) (len : ℤ), (packWords r ws cur len).flatten = cur ++ ws := by
  intro ws
  induction ws with
  | nil => intro cur len; cases cur <;> simp [packWords]
  | cons w ws ih =>
    intro cur len
    simp only [packWords]
    split
    · simp [ih]
    · simp [ih]

theorem splitOnP_no_sat (p : Char → Bool) :
    ∀ (s t : Str), t ∈ List.splitOnP p s → ∀ c ∈ t, p c = false := by
  intro s
  induction s with
  | nil =>
    intro t ht c hc
    rw [List.splitOnP_nil] at ht
    simp only [List.mem_singleton] at ht
    subst ht
    simp at hc
  | cons x xs ih =>
    intro t ht c hc
    rw [List.splitOnP_cons] at ht
    by_cases hx : p x
    · rw [if_pos hx] at ht
      rcases List.mem_cons.mp ht with h1 | h2
      · subst h1; simp at hc
      · exact ih t h2 c hc
    · rw [if_neg hx] at ht
      cases hsp : List.splitOnP p xs with
      | nil => exact absurd hsp (List.splitOnP_ne_nil p xs)
      | cons hd tl =>
        rw [hsp] at ht
        simp only [List.modifyHead] at ht
        rcases List.mem_cons.mp ht with h1 | h2
        · subst h1
          rcases List.mem_cons.mp hc with h3 | h4
          · subst h3; exact Bool.eq_false_iff.mpr hx
          · exact ih hd (by rw [hsp]; exact List.mem_cons_self hd tl) c h4
        · exact ih t (by rw [hsp]; exact List.mem_cons_of_mem hd h2) c hc

theorem pyTokens_mem_ne_nil {s t : Str} (h : t ∈ pyTokens s) : t ≠ [] := by
  have := (List.mem_filter.mp h).2
  simpa using this

theorem pyTokens_mem_no_ws {s t : Str} (h : t ∈ pyTokens s) :
    ∀ c ∈ t, c.isWhitespace = false :=
  splitOnP_no_sat _ s t (List.mem_filter.mp h).1

theorem pyTokens_joinSp :
    ∀ g : List Str,
      (∀ t ∈ g, t ≠ [] ∧ ∀ c ∈ t, c.isWhitespace = false) →
      pyTokens (joinSp g) = g := by
  intro g
  induction g with
  | nil => intro _; rfl
  | cons t g ih =>
    intro hg
    obtain ⟨hne, hnw⟩ := hg t (List.mem_cons_self t g)
    have hfil : ∀ ts : List Str,
        List.filter (fun u => !u.isEmpty) (t :: ts) =
          t :: List.filter (fun u => !u.isEmpty) ts := by
      intro ts
      cases t with
      | nil => exact absurd rfl hne
      | cons c cs => rfl
    cases g with
    | nil =>
      show pyTokens t = [t]
      unfold pyTokens
      rw [List.splitOnP_eq_single]
      · exact hfil []
      · intro x hx
        simp [hnw x hx]
    | cons t2 g2 =>
      have hjoin : joinSp (t :: t2 :: g2) = t ++ ' ' :: joinSp (t2 :: g2) := rfl
      rw [hjoin]
      unfold pyTokens
      rw [List.splitOnP_first _ _ (fun x hx => by simp [hnw x hx]) ' ' (by decide)]
      have htail := ih (fun u hu => hg u (List.mem_cons_of_mem t hu))
      unfold pyTokens at htail
      rw [hfil, htail]

/-- C1 amended: whenever the formatted section text exceeds `max_length`
and the low-budget fallback does not apply (`max_length` minus the header
length is more than 100), concatenating the whitespace-token sequences of
the emitted chunks with the header stripped reproduces the token sequence
of the content exactly. -/
theorem C1_split_long_token_preservation (title label content : Str) (maxLength : ℕ)
    (hexceeds : maxLength < (headerFor title label ++ content).length)
    (hrem : 100 < (maxLength : ℤ) - ((headerFor title label).length : ℤ)) :
    ((splitLong title label content maxLength).map
        (fun c => pyTokens (c.drop (headerFor title label).length))).flatten
      = pyTokens content := by
  simp only [splitLong]
  rw [if_neg (by omega)]
  rw [List.map_map]
  have hmap : ∀ g ∈ packWords ((maxLength : ℤ) - ((headerFor title label).length : ℤ))
      (pyTokens content) [] 0,
      ((fun c => pyTokens (c.drop (headerFor title label).length)) ∘
        (fun g => headerFor title label ++ joinSp g)) g = g := by
    intro g hg
    simp only [Function.comp]
    rw [List.drop_left]
    apply pyTokens_joinSp
    intro t ht
    have h1 : t ∈ (packWords ((maxLength : ℤ) - ((headerFor title label).length : ℤ))
        (pyTokens content) [] 0).flatten :=
      List.mem_flatten.mpr ⟨g, hg, ht⟩
    rw [packWords_flatten, List.nil_append] at h1
    exact ⟨pyTokens_mem_ne_nil h1, pyTokens_mem_no_ws h1⟩
  rw [List.map_congr_left hmap]
  have hid : List.map (fun a : List Str => a)
      (packWords ((maxLength : ℤ) - ((headerFor title label).length : ℤ))
        (pyTokens content) [] 0) =
      packWords ((maxLength : ℤ) - ((headerFor title label).length : ℤ))
        (pyTokens content) [] 0 := by
    simp
  rw [hid, packWords_flatten, List.nil_append]

set_option maxRecDepth 8000 in
/-- Witness for C1: a concrete long section split with a budget whose
remainder exceeds 100. -/
theorem C1_split_long_token_preservation_witness :
    ((splitLong ("T".toList) ("Conditions".toList)
        (joinSp (List.replicate 24 ("aaaaa".toList))) 130).map
        (fun c => pyTokens
          (c.drop (headerFor ("T".toList) ("Conditions".toList)).length))).flatten
      = pyTokens (joinSp (List.replicate 24 ("aaaaa".toList))) :=
  C1_split_long_token_preservation _ _ _ _ (by decide) (by decide)

set_option maxRecDepth 8000 in
/-- C1 counterexample: with an empty title, the label `Conditions`,
`max_length = 10` and a single 101-character token as content, the
formatted text exceeds `max_length`, `max_length` minus the header length
is at most 100, and the single emitted chunk truncates the content to its
first 100 characters, losing the token tail. -/
theorem C1_split_long_counterexample :
    10 < (headerFor [] ("Conditions".toList) ++ List.replicate 101 'a').length ∧
    ((10 : ℤ) - ((headerFor [] ("Conditions".toList)).length : ℤ) ≤ 100) ∧
    ((splitLong [] ("Conditions".toList) (List.replicate 101 'a') 10).map
        (fun c => pyTokens (c.drop (headerFor [] ("Conditions".toList)).length))).flatten
      ≠ pyTokens (List.replicate 101 'a') := by
  refine ⟨by decide, by decide, ?_⟩
  decide

theorem outcomeGroups_flatten (ml hl : ℕ) :
    ∀ (os cur : List Str) (len : ℕ),
      (outcomeGroups ml hl os cur len).flatten = cur ++ os.map formatOutcome := by
  intro os
  induction os with
  | nil => intro cur len; cases cur <;> simp [outcomeGroups]
  | cons o os ih =>
    intro cur len
    simp only [outcomeGroups]
    split
    · simp [ih]
    · simp [ih]

theorem outcomeGroups_size (ml hl : ℕ) :
    ∀ (os cur : List Str) (len : ℕ),
      len = hl + (cur.map List.length).sum →
      (cur.length ≤ 1 ∨ hl + (cur.map List.length).sum ≤ ml) →
      ∀ g ∈ outcomeGroups ml hl os cur len,
        g.length ≤ 1 ∨ hl + (g.map List.length).sum ≤ ml := by
  intro os
  induction os with
  | nil =>
    intro cur len hlen hok g hg
    simp only [outcomeGroups] at hg
    split at hg
    · simp at hg
    · simp only [List.mem_singleton] at hg
      subst hg
      exact hok
  | cons o os ih =>
    intro cur len hlen hok g hg
    simp only [outcomeGroups] at hg
    split at hg
    · rename_i hcond
      rcases List.mem_cons.mp hg with h1 | h2
      · subst h1; exact hok
      · refine ih [formatOutcome o] (hl + (formatOutcome o).length) (by simp) ?_ g h2
        left
        simp
    · rename_i hcond
      refine ih (cur ++ [formatOutcome o]) (len + (formatOutcome o).length) ?_ ?_ g hg
      · simp only [hlen, List.map_append, List.map_cons, List.map_nil,
          List.sum_append, List.sum_cons, List.sum_nil]
        omega
      · by_cases hcur : cur = []
        · subst hcur
          left
          simp
        · right
          have hA : ¬ ml < len + (formatOutcome o).length := fun hA => hcond ⟨hA, hcur⟩
          simp only [List.map_append, List.map_cons, List.map_nil,
            List.sum_append, List.sum_cons, List.sum_nil]
          omega

/-- C6: the concatenation of the outcome groups, in emission order, is the
formatted entry list in original order (each entry exactly once, never
truncated); every emitted chunk begins with the shared header
`Title: {title}\n{Label}:\n`; and an entry whose formatted length exceeds
`max_length` always occupies its group alone. -/
theorem C6_outcome_chunk_packing (title label : Str) (ml : ℕ) (outcomes : List Str) :
    ((outcomeGroups ml (headerOutcomes title label).length outcomes []
        (headerOutcomes title label).length).flatten = outcomes.map formatOutcome) ∧
    (∀ c ∈ addOutcomeChunks title label ml outcomes,
      headerOutcomes title label <+: c) ∧
    (∀ g ∈ outcomeGroups ml (headerOutcomes title label).length outcomes []
        (headerOutcomes title label).length,
      ∀ t ∈ g, ml < t.length → g = [t]) := by
  refine ⟨?_, ?_, ?_⟩
  · rw [outcomeGroups_flatten]
    simp
  · intro c hc
    simp only [addOutcomeChunks, List.mem_map] at hc
    obtain ⟨g, hg, rfl⟩ := hc
    exact List.prefix_append _ _
  · intro g hg t ht hml
    have hok := outcomeGroups_size ml (headerOutcomes title label).length outcomes []
      (headerOutcomes title label).length (by simp) (by simp) g hg
    rcases hok with h1 | h2
    · cases g with
      | nil => simp at ht
      | cons a g2 =>
        cases g2 with
        | nil =>
          rcases List.mem_singleton.mp ht with rfl
          rfl
        | cons b g3 => simp at h1
    · exfalso
      have hmem : t.length ∈ g.map List.length := List.mem_map_of_mem List.length ht
      have hle : t.length ≤ (g.map List.length).sum :=
        List.single_le_sum (fun x _ => Nat.zero_le x) _ hmem
      omega

/-- Witness for C6: a single oversized entry occupies its group alone. -/
theorem C6_outcome_chunk_packing_witness :
    ([formatOutcome ("0123456789".toList)] : List Str) = [formatOutcome ("0123456789".toList)] :=
  (C6_outcome_chunk_packing ("T".toList) ("P".toList) 1 [("0123456789".toList)]).2.2
    [formatOutcome ("0123456789".toList)] (by decide)
    (formatOutcome ("0123456789".toList)) (by decide) (by decide)

theorem pyFind_eq_none_iff {source pat : Str} :
    pyFind source pat = none ↔ ¬ pat <:+: source := by
  unfold pyFind
  rw [List.find?_eq_none]
  constructor
  · intro h hinf
    obtain ⟨s, t, hst⟩ := hinf
    have hlen : s.length ≤ source.length := by
      have := congrArg List.length hst
      simp only [List.length_append] at this
      omega
    refine h s.length (List.mem_range.mpr (by omega)) ?_
    rw [List.isPrefixOf_iff_prefix, ← hst, List.append_assoc, List.drop_left]
    exact List.prefix_append pat t
  · intro h i _
    rw [List.isPrefixOf_iff_prefix]
    intro hpre
    obtain ⟨r, hr⟩ := hpre
    exact h ⟨source.take i, r, by rw [List.append_assoc, hr, List.take_append_drop]⟩

theorem extractBetween_not_found (startM : Str) (endM : Option Str) {source : Str}
    (h : ¬ startM <:+: source) : extractBetween startM endM source = [] := by
  unfold extractBetween
  rw [pyFind_eq_none_iff.mpr h]

theorem pyStrip_part (s : Str) : pyStrip s <:+: s := by
  unfold pyStrip
  have h1 : s.dropWhile (fun c => c.isWhitespace) <:+ s := List.dropWhile_suffix _
  have h3 : (s.dropWhile (fun c => c.isWhitespace)).reverse.dropWhile
      (fun c => c.isWhitespace) <:+ (s.dropWhile (fun c => c.isWhitespace)).reverse :=
    List.dropWhile_suffix _
  have h2 : ((s.dropWhile (fun c => c.isWhitespace)).reverse.dropWhile
      (fun c => c.isWhitespace)).reverse <+: s.dropWhile (fun c => c.isWhitespace) := by
    have h4 := List.reverse_prefix.mpr h3
    rwa [List.reverse_reverse] at h4
  exact h2.isInfix.trans h1.isInfix

theorem extractBetween_part (startM : Str) (endM : Option Str) (source : Str) :
    extractBetween startM endM source <:+: source := by
  unfold extractBetween
  cases hf : pyFind source startM with
  | none =>
    simp only [hf]
    exact List.nil_infix
  | some i =>
    simp only [hf]
    cases endM with
    | none => exact (pyStrip_part _).trans (List.drop_suffix _ _).isInfix
    | some e =>
      cases h2 : (if e.isEmpty then none
          else pyFind (source.drop (i + startM.length)) e) with
      | none =>
        simp only [h2]
        exact (pyStrip_part _).trans (List.drop_suffix _ _).isInfix
      | some j =>
        simp only [h2]
        exact (pyStrip_part _).trans
          ((List.take_prefix _ _).isInfix.trans (List.drop_suffix _ _).isInfix)

theorem dictSet_keys {k : Str} {v : SVal} :
    ∀ m : List (Str × SVal), k ∈ m.map Prod.fst →
      (dictSet m k v).map Prod.fst = m.map Prod.fst := by
  intro m
  induction m with
  | nil => intro h; simp at h
  | cons p m ih =>
    intro h
    simp only [dictSet]
    by_cases hp : p.1 = k
    · rw [if_pos hp]
      simp
    · rw [if_neg hp]
      simp only [List.map_cons]
      congr 1
      apply ih
      simp only [List.map_cons, List.mem_cons] at h
      rcases h with h1 | h2
      · exact absurd h1.symm hp
      · exact h2

theorem dictSet_keys_default {m : List (Str × SVal)} {k : Str} {v : SVal}
    (hm : m.map Prod.fst = DEFAULT_SECTIONS.map Prod.fst)
    (hk : k ∈ DEFAULT_SECTIONS.map Prod.fst) :
    (dictSet m k v).map Prod.fst = DEFAULT_SECTIONS.map Prod.fst := by
  rw [dictSet_keys m (by rw [hm]; exact hk), hm]

theorem lookup_dictSet_self (k : Str) (v : SVal) :
    ∀ m : List (Str × SVal), List.lookup k (dictSet m k v) = some v := by
  intro m
  induction m with
  | nil => simp [dictSet, List.lookup]
  | cons p m ih =>
    simp only [dictSet]
    by_cases hp : p.1 = k
    · rw [if_pos hp]
      simp [List.lookup, hp]
    · rw [if_neg hp]
      have hbeq : (k == p.1) = false :=
        beq_eq_false_iff_ne.mpr (fun he => hp he.symm)
      simp [List.lookup, hbeq, ih]

theorem lookup_dictSet_other {k k2 : Str} (hne : k2 ≠ k) (v : SVal) :
    ∀ m : List (Str × SVal),
      List.lookup k2 (dictSet m k v) = List.lookup k2 m := by
  intro m
  induction m with
  | nil =>
    have hbeq : (k2 == k) = false := beq_eq_false_iff_ne.mpr hne
    simp [dictSet, List.lookup, hbeq]
  | cons p m ih =>
    simp only [dictSet]
    by_cases hp : p.1 = k
    · rw [if_pos hp]
      have hbeq : (k2 == p.1) = false :=
        beq_eq_false_iff_ne.mpr (fun he => hne (he.trans hp))
      simp [List.lookup, hbeq]
    · rw [if_neg hp]
      simp only [List.lookup]
      cases hbeq : k2 == p.1 <;> simp [ih]

theorem lookup_parseTitleStep {k : Str} (hk : k ≠ "title".toList) (text : Str) :
    List.lookup k (parseTitleStep text) = List.lookup k DEFAULT_SECTIONS := by
  simp only [parseTitleStep]
  split
  · rfl
  · exact lookup_dictSet_other hk _ _

theorem lookup_parseEligStep {k : Str} (h1 : k ≠ "inclusion".toList)
    (h2 : k ≠ "exclusion".toList) (text : Str) :
    List.lookup k (parseEligStep text) = List.lookup k (parseTitleStep text) := by
  unfold parseEligStep
  split
  · rfl
  · rw [lookup_dictSet_other h2, lookup_dictSet_other h1]

theorem lookup_parseStdStep {k : Str} (h1 : k ≠ "conditions".toList)
    (h2 : k ≠ "locations".toList) (h3 : k ≠ "interventions".toList) (text : Str) :
    List.lookup k (parseStdStep text) = List.lookup k (parseEligStep text) := by
  unfold parseStdStep
  rw [lookup_dictSet_other h3, lookup_dictSet_other h2, lookup_dictSet_other h1]

theorem parseTitleStep_keys (text : Str) :
    (parseTitleStep text).map Prod.fst = DEFAULT_SECTIONS.map Prod.fst := by
  simp only [parseTitleStep]
  split
  · rfl
  · exact dictSet_keys_default rfl (by decide)

theorem parseEligStep_keys (text : Str) :
    (parseEligStep text).map Prod.fst = DEFAULT_SECTIONS.map Prod.fst := by
  unfold parseEligStep
  split
  · exact parseTitleStep_keys text
  · exact dictSet_keys_default
      (dictSet_keys_default (parseTitleStep_keys text) (by decide)) (by decide)

theorem parseStdStep_keys (text : Str) :
    (parseStdStep text).map Prod.fst = DEFAULT_SECTIONS.map Prod.fst := by
  unfold parseStdStep
  exact dictSet_keys_default
    (dictSet_keys_default
      (dictSet_keys_default (parseEligStep_keys text) (by decide)) (by decide)) (by decide)

/-- C5 amended: for every document text the section map has exactly the
eight fixed keys, in their fixed order, with no key ever absent; a missing
start marker leaves the corresponding section as the empty string — and
this holds for `primary_outcomes` and `secondary_outcomes` as well, which
stay the empty string (not an empty sequence) when the `Outcomes:` marker
is missing, becoming sequences only when a truthy outcomes block exists. -/
theorem C5_section_map (text : Str) :
    ((parse text).map Prod.fst = DEFAULT_SECTIONS.map Prod.fst) ∧
    (¬ ("Conditions:".toList) <:+: text →
      List.lookup ("conditions".toList) (parse text) = some (.s [])) ∧
    (¬ ("Locations:".toList) <:+: text →
      List.lookup ("locations".toList) (parse text) = some (.s [])) ∧
    (¬ ("Interventions:".toList) <:+: text →
      List.lookup ("interventions".toList) (parse text) = some (.s [])) ∧
    (¬ ("Inclusion Criteria:".toList) <:+: text →
      List.lookup ("inclusion".toList) (parse text) = some (.s [])) ∧
    (¬ ("Exclusion Criteria:".toList) <:+: text →
      List.lookup ("exclusion".toList) (parse text) = some (.s [])) ∧
    (¬ ("Outcomes:".toList) <:+: text →
      List.lookup ("primary_outcomes".toList) (parse text) = some (.s []) ∧
      List.lookup ("secondary_outcomes".toList) (parse text) = some (.s [])) := by
  have houtkeys : ∀ k : Str, k ≠ "primary_outcomes".toList →
      k ≠ "secondary_outcomes".toList →
      List.lookup k (parse text) = List.lookup k (parseStdStep text) := by
    intro k hk1 hk2
    simp only [parse]
    split
    · rfl
    · rw [lookup_dictSet_other hk2, lookup_dictSet_other hk1]
  refine ⟨?_, ?_, ?_, ?_, ?_, ?_, ?_⟩
  · simp only [parse]
    split
    · exact parseStdStep_keys text
    · exact dictSet_keys_default
        (dictSet_keys_default (parseStdStep_keys text) (by decide)) (by decide)
  · intro hni
    rw [houtkeys _ (by decide) (by decide)]
    unfold parseStdStep
    rw [lookup_dictSet_other (by decide), lookup_dictSet_other (by decide),
      lookup_dictSet_self]
    rw [extractBetween_not_found _ _ hni]
  · intro hni
    rw [houtkeys _ (by decide) (by decide)]
    unfold parseStdStep
    rw [lookup_dictSet_other (by decide), lookup_dictSet_self]
    rw [extractBetween_not_found _ _ hni]
  · intro hni
    rw [houtkeys _ (by decide) (by decide)]
    unfold parseStdStep
    rw [lookup_dictSet_self]
    rw [extractBetween_not_found _ _ hni]
  · intro hni
    rw [houtkeys _ (by decide) (by decide)]
    rw [lookup_parseStdStep (by decide) (by decide) (by decide)]
    unfold parseEligStep
    split
    · rw [lookup_parseTitleStep (by decide)]
      decide
    · have hsub : ¬ ("Inclusion Criteria:".toList) <:+: parseEligBlock text :=
        fun hinf => hni (hinf.trans (extractBetween_part _ _ _))
      rw [lookup_dictSet_other (by decide), lookup_dictSet_self]
      rw [extractBetween_not_found _ _ hsub]
  · intro hni
    rw [houtkeys _ (by decide) (by decide)]
    rw [lookup_parseStdStep (by decide) (by decide) (by decide)]
    unfold parseEligStep
    split
    · rw [lookup_parseTitleStep (by decide)]
      decide
    · have hsub : ¬ ("Exclusion Criteria:".toList) <:+: parseEligBlock text :=
        fun hinf => hni (hinf.trans (extractBetween_part _ _ _))
      rw [lookup_dictSet_self]
      rw [extractBetween_not_found _ _ hsub]
  · intro hni
    have hout : extractBetween ("Outcomes:".toList) none text = [] :=
      extractBetween_not_found _ _ hni
    have hbranch : parse text = parseStdStep text := by
      simp only [parse, hout]
      rfl
    rw [hbranch]
    constructor
    · rw [lookup_parseStdStep (by decide) (by decide) (by decide),
        lookup_parseEligStep (by decide) (by decide),
        lookup_parseTitleStep (by decide)]
      decide
    · rw [lookup_parseStdStep (by decide) (by decide) (by decide),
        lookup_parseEligStep (by decide) (by decide),
        lookup_parseTitleStep (by decide)]
      decide

/-- Witness for C5 on a one-character document without any marker. -/
theorem C5_section_map_witness :
    List.lookup ("conditions".toList) (parse ("X".toList)) = some (.s []) :=
  (C5_section_map ("X".toList)).2.1 (by decide)

/-- C5 counterexample: on the markerless document "X" the parse leaves
`primary_outcomes` and `secondary_outcomes` bound to the empty string
(`SVal.s []`), not to an empty sequence (`SVal.l []`) as the claim
states. -/
theorem C5_section_map_counterexample :
    List.lookup ("primary_outcomes".toList) (parse ("X".toList)) = some (.s []) ∧
    List.lookup ("primary_outcomes".toList) (parse ("X".toList)) ≠ some (.l []) ∧
    List.lookup ("secondary_outcomes".toList) (parse ("X".toList)) = some (.s []) ∧
    List.lookup ("secondary_outcomes".toList) (parse ("X".toList)) ≠ some (.l []) := by
  refine ⟨?_, ?_, ?_, ?_⟩ <;> decide

theorem getD_mem_of_lt {l : List ℤ} {i : ℕ} (h : i < l.length) : l.getD i 0 ∈ l := by
  rw [List.getD_eq_getElem?_getD, List.getElem?_eq_getElem h, Option.getD_some]
  exact List.getElem_mem h

theorem foldl_min_le_init : ∀ (xs : List ℤ) (a : ℤ), xs.foldl min a ≤ a := by
  intro xs
  induction xs with
  | nil => intro a; simp
  | cons x xs ih => intro a; exact le_trans (ih (min a x)) (min_le_left a x)

theorem foldl_min_le_mem : ∀ (xs : List ℤ) (a x : ℤ), x ∈ xs → xs.foldl min a ≤ x := by
  intro xs
  induction xs with
  | nil => intro a x hx; simp at hx
  | cons y ys ih =>
    intro a x hx
    rcases List.mem_cons.mp hx with h1 | h2
    · subst h1
      exact le_trans (foldl_min_le_init ys (min a x)) (min_le_right a x)
    · exact ih (min a y) x h2

theorem pyMin_le {l : List ℤ} {x : ℤ} (h : x ∈ l) : pyMin l ≤ x := by
  cases l with
  | nil => simp at h
  | cons y ys =>
    rcases List.mem_cons.mp h with h1 | h2
    · subst h1
      exact foldl_min_le_init ys x
    · exact foldl_min_le_mem ys y x h2

theorem init_le_foldl_max : ∀ (xs : List ℤ) (a : ℤ), a ≤ xs.foldl max a := by
  intro xs
  induction xs with
  | nil => intro a; simp
  | cons x xs ih => intro a; exact le_trans (le_max_left a x) (ih (max a x))

theorem mem_le_foldl_max : ∀ (xs : List ℤ) (a x : ℤ), x ∈ xs → x ≤ xs.foldl max a := by
  intro xs
  induction xs with
  | nil => intro a x hx; simp at hx
  | cons y ys ih =>
    intro a x hx
    rcases List.mem_cons.mp hx with h1 | h2
    · subst h1
      exact le_trans (le_max_right a x) (init_le_foldl_max ys (max a x))
    · exact ih (max a y) x h2

theorem le_pyMax {l : List ℤ} {x : ℤ} (h : x ∈ l) : x ≤ pyMax l := by
  cases l with
  | nil => simp at h
  | cons y ys =>
    rcases List.mem_cons.mp h with h1 | h2
    · subst h1
      exact init_le_foldl_max ys x
    · exact mem_le_foldl_max ys y x h2

theorem pyMedian_bounds {l : List ℤ} (h : l ≠ []) :
    (pyMin l : ℚ) ≤ pyMedian l ∧ pyMedian l ≤ (pyMax l : ℚ) := by
  have hpos : 0 < l.length := List.length_pos.mpr h
  have hslen : (l.mergeSort (fun a b => decide (a ≤ b))).length = l.length := by
    simp
  simp only [pyMedian]
  split
  · have hi : l.length / 2 < l.length := Nat.div_lt_self hpos (by norm_num)
    have hmem : (l.mergeSort (fun a b => decide (a ≤ b))).getD (l.length / 2) 0 ∈ l := by
      have hm := getD_mem_of_lt (l := l.mergeSort (fun a b => decide (a ≤ b)))
        (i := l.length / 2) (by omega)
      rwa [List.mem_mergeSort] at hm
    constructor
    · exact_mod_cast pyMin_le hmem
    · exact_mod_cast le_pyMax hmem
  · rename_i heven
    have h2 : 2 ≤ l.length := by omega
    have hmem1 : (l.mergeSort (fun a b => decide (a ≤ b))).getD (l.length / 2 - 1) 0 ∈ l := by
      have hm := getD_mem_of_lt (l := l.mergeSort (fun a b => decide (a ≤ b)))
        (i := l.length / 2 - 1) (by omega)
      rwa [List.mem_mergeSort] at hm
    have hmem2 : (l.mergeSort (fun a b => decide (a ≤ b))).getD (l.length / 2) 0 ∈ l := by
      have hm := getD_mem_of_lt (l := l.mergeSort (fun a b => decide (a ≤ b)))
        (i := l.length / 2) (by omega)
      rwa [List.mem_mergeSort] at hm
    have q1 : (pyMin l : ℚ) ≤
        ((l.mergeSort (fun a b => decide (a ≤ b))).getD (l.length / 2 - 1) 0 : ℚ) := by
      exact_mod_cast pyMin_le hmem1
    have q2 : (pyMin l : ℚ) ≤
        ((l.mergeSort (fun a b => decide (a ≤ b))).getD (l.length / 2) 0 : ℚ) := by
      exact_mod_cast pyMin_le hmem2
    have q3 : ((l.mergeSort (fun a b => decide (a ≤ b))).getD (l.length / 2 - 1) 0 : ℚ)
        ≤ (pyMax l : ℚ) := by
      exact_mod_cast le_pyMax hmem1
    have q4 : ((l.mergeSort (fun a b => decide (a ≤ b))).getD (l.length / 2) 0 : ℚ)
        ≤ (pyMax l : ℚ) := by
      exact_mod_cast le_pyMax hmem2
    constructor
    · push_cast
      linarith
    · push_cast
      linarith

theorem sumCounts_bump : ∀ (m : List (Str × ℕ)) (key : Str),
    sumCounts (bump m key) = sumCounts m + 1 := by
  intro m
  induction m with
  | nil => intro key; simp [bump, sumCounts]
  | cons p m ih =>
    intro key
    simp only [bump]
    split
    · simp only [sumCounts, List.map_cons, List.sum_cons]
      omega
    · simp only [sumCounts, List.map_cons, List.sum_cons] at *
      rw [ih]
      omega

theorem countLoop_sums : ∀ (ps : List PatientRec)
    (acc : List (Str × ℕ) × List (Str × ℕ) × List (Str × ℕ)),
    sumCounts (countLoop ps acc).1 = sumCounts acc.1 + ps.length ∧
    sumCounts (countLoop ps acc).2.1 = sumCounts acc.2.1 + ps.length ∧
    sumCounts (countLoop ps acc).2.2 = sumCounts acc.2.2 + ps.length := by
  intro ps
  induction ps with
  | nil => intro acc; simp [countLoop]
  | cons p ps ih =>
    intro acc
    simp only [countLoop]
    obtain ⟨i1, i2, i3⟩ :=
      ih (bump acc.1 p.gender, bump acc.2.1 p.race, bump acc.2.2 p.ethnicity)
    simp only [List.length_cons]
    refine ⟨?_, ?_, ?_⟩
    · rw [i1]
      simp [sumCounts_bump]
      omega
    · rw [i2]
      simp [sumCounts_bump]
      omega
    · rw [i3]
      simp [sumCounts_bump]
      omega

/-- C10: for a non-empty patient list, the demographics summary has
`total` equal to the number of patients, gender/race/ethnicity count maps
that each sum to that total, and an age sub-dict whose min, max and
median are taken over the returned patients' ages with
`min ≤ median ≤ max`. -/
theorem C10_demographics_invariants (ps : List PatientRec) (h : ps ≠ []) :
    (buildDemographics ps).total = ps.length ∧
    sumCounts (buildDemographics ps).gender = ps.length ∧
    sumCounts (buildDemographics ps).race = ps.length ∧
    sumCounts (buildDemographics ps).ethnicity = ps.length ∧
    ∃ a, (buildDemographics ps).age = some a ∧
      a.amin = pyMin (ps.map (fun p => p.age)) ∧
      a.amax = pyMax (ps.map (fun p => p.age)) ∧
      a.amedian = pyMedian (ps.map (fun p => p.age)) ∧
      (a.amin : ℚ) ≤ a.amedian ∧ a.amedian ≤ (a.amax : ℚ) := by
  have hne : ps.isEmpty = false := by
    cases ps with
    | nil => exact absurd rfl h
    | cons p ps => rfl
  have hmapne : ps.map (fun p => p.age) ≠ [] := by
    simp [h]
  have hb := pyMedian_bounds hmapne
  simp only [buildDemographics, hne, Bool.false_eq_true, if_false]
  refine ⟨trivial, ?_, ?_, ?_, ?_⟩
  · have := (countLoop_sums ps ([], [], [])).1
    simp only [sumCounts, List.map_nil, List.sum_nil] at this
    simpa [sumCounts] using this
  · have := (countLoop_sums ps ([], [], [])).2.1
    simp only [sumCounts, List.map_nil, List.sum_nil] at this
    simpa [sumCounts] using this
  · have := (countLoop_sums ps ([], [], [])).2.2
    simp only [sumCounts, List.map_nil, List.sum_nil] at this
    simpa [sumCounts] using this
  · exact ⟨_, rfl, rfl, rfl, rfl, hb.1, hb.2⟩

/-- Witness for C10 at a concrete two-patient list. -/
theorem C10_demographics_invariants_witness :
    (buildDemographics
        [⟨30, "F".toList, "W".toList, "H".toList⟩,
         ⟨40, "M".toList, "B".toList, "N".toList⟩]).total = 2 ∧
    sumCounts (buildDemographics
        [⟨30, "F".toList, "W".toList, "H".toList⟩,
         ⟨40, "M".toList, "B".toList, "N".toList⟩]).gender = 2 ∧
    sumCounts (buildDemographics
        [⟨30, "F".toList, "W".toList, "H".toList⟩,
         ⟨40, "M".toList, "B".toList, "N".toList⟩]).race = 2 ∧
    sumCounts (buildDemographics
        [⟨30, "F".toList, "W".toList, "H".toList⟩,
         ⟨40, "M".toList, "B".toList, "N".toList⟩]).ethnicity = 2 ∧
    ∃ a, (buildDemographics
        [⟨30, "F".toList, "W".toList, "H".toList⟩,
         ⟨40, "M".toList, "B".toList, "N".toList⟩]).age = some a ∧
      a.amin = pyMin ([⟨30, "F".toList, "W".toList, "H".toList⟩,
         (⟨40, "M".toList, "B".toList, "N".toList⟩ : PatientRec)].map (fun p => p.age)) ∧
      a.amax = pyMax ([⟨30, "F".toList, "W".toList, "H".toList⟩,
         (⟨40, "M".toList, "B".toList, "N".toList⟩ : PatientRec)].map (fun p => p.age)) ∧
      a.amedian = pyMedian ([⟨30, "F".toList, "W".toList, "H".toList⟩,
         (⟨40, "M".toList, "B".toList, "N".toList⟩ : PatientRec)].map (fun p => p.age)) ∧
      (a.amin : ℚ) ≤ a.amedian ∧ a.amedian ≤ (a.amax : ℚ) :=
  C10_demographics_invariants
    [⟨30, "F".toList, "W".toList, "H".toList⟩,
     ⟨40, "M".toList, "B".toList, "N".toList⟩] (by decide)

end CTrials
